import Mathlib

-- Verification of the PDF report generator (`PDF Generator App/app.py`):
-- a shallow embedding of the markdown-table pipeline, the content renderer,
-- the page-break rule and the request flow, with theorems settling the
-- specification's testable properties.

deriving instance DecidableEq for Except

namespace PdfApp

-- ### String primitives (Python semantics)

/-- Python single-character `str.split` on a character list: empty fields are
kept and the result always has at least one field (`"".split("|") == [""]`). -/
def splitCharList (c : Char) : List Char → List (List Char)
  | [] => [[]]
  | x :: xs =>
    let r := splitCharList c xs
    if x = c then [] :: r
    else (x :: r.headD []) :: r.tail

/-- Python `str.split(sep)` for a one-character separator. -/
def pySplit (s : String) (c : Char) : List String :=
  (splitCharList c s.data).map String.mk

/-- The characters removed by Python `str.strip()` (ASCII whitespace). -/
def isPySpace (c : Char) : Bool :=
  c == ' ' || c == '\t' || c == '\n' || c == '\r' || c == '\x0b' || c == '\x0c'

/-- Python `str.strip()`: drop leading and trailing whitespace. -/
def pyStrip (s : String) : String :=
  String.mk (((s.data.dropWhile isPySpace).reverse.dropWhile isPySpace).reverse)

/-- Python `"|" in line`. -/
def hasPipe (s : String) : Bool := s.data.contains '|'

/-- Python `"\n".join(lines)`. -/
def joinLines (ls : List String) : String := String.intercalate "\n" ls

-- ### Table Parser (`parse_markdown_table`, app.py lines 59-83)

/-- The errors `parse_markdown_table` can raise: the insufficient-row check
and the separator-format check (both `ValueError` in the source). -/
inductive TableError
  | insufficientRows
  | badSeparator
  deriving DecidableEq

/-- The non-blank trimmed lines of the markup:
`[row.strip() for row in markdown.strip().split("\n") if row.strip()]`. -/
def normRows (markdown : String) : List String :=
  ((pySplit (pyStrip markdown) '\n').map pyStrip).filter (fun r => r != "")

/-- Python `re.match(r"^-+$", cell)` on a stripped cell: one or more dashes
and nothing else. -/
def isDashRun (s : String) : Bool :=
  !s.data.isEmpty && s.data.all (fun ch => ch == '-')

/-- A separator cell is accepted when it is empty or a run of dashes
(`cell == "" or re.match(r"^-+$", cell)`). -/
def sepCellOk (s : String) : Bool := s == "" || isDashRun s

/-- The header cells: `rows[0].split("|")` (untrimmed). -/
def headerCells (md : String) : List String :=
  pySplit ((normRows md).getD 0 "") '|'

/-- The separator cells: `rows[1].split("|")`, each trimmed. -/
def sepCells (md : String) : List String :=
  (pySplit ((normRows md).getD 1 "") '|').map pyStrip

/-- The data rows: `[row.split("|") for row in rows[2:]]` (untrimmed). -/
def dataCells (md : String) : List (List String) :=
  ((normRows md).drop 2).map (fun row => pySplit row '|')

/-- `max_cols = max(len(header), *(len(row) for row in data))`. -/
def maxColsOf (md : String) : Nat :=
  ((dataCells md).map List.length).foldl max (headerCells md).length

/-- Trim every cell of a row and right-pad it with empty cells to `m`:
`[cell.strip() for cell in row] + [""] * (m - len(row))`. -/
def padRow (m : Nat) (row : List String) : List String :=
  row.map pyStrip ++ List.replicate (m - row.length) ""

/-- Embedding of `parse_markdown_table`: split into non-blank trimmed rows,
require at least 3, validate the separator row, split the header and data
rows on `|`, trim every cell and right-pad each row with empty cells to the
maximum cell count `max_cols`. -/
def parse_markdown_table (markdown : String) :
    Except TableError (List (List String)) :=
  if (normRows markdown).length < 3 then .error .insufficientRows
  else if (sepCells markdown).all sepCellOk then
    .ok (padRow (maxColsOf markdown) (headerCells markdown)
      :: (dataCells markdown).map (padRow (maxColsOf markdown)))
  else .error .badSeparator

-- ### Column cleanup (`StyledPDF.clean_table_data`, app.py lines 251-260)

/-- Python `list(zip(*rows))`: the columns of `rows`, truncated to the
shortest row, in order. -/
def pyTranspose : List (List String) → List (List String)
  | [] => []
  | r :: rs =>
    (List.range (rs.foldl (fun acc l => min acc l.length) r.length)).map
      (fun i => (r :: rs).map (fun l => l.getD i ""))

/-- A column survives cleanup when some cell in it is non-blank:
`any(cell.strip() for cell in col)`. -/
def colNonBlank (col : List String) : Bool :=
  col.any (fun cell => pyStrip cell != "")

/-- The surviving columns: `[col for col in transposed if any(...)]`. -/
def cleanedCols (data : List (List String)) : List (List String) :=
  (pyTranspose data).filter colNonBlank

/-- Embedding of `clean_table_data`: transpose, keep the columns in which
some cell is non-blank, transpose back; fall back to the input when the
input is empty or every column is blank. -/
def clean_table_data (data : List (List String)) : List (List String) :=
  if data.isEmpty then data
  else if (cleanedCols data).isEmpty then data
  else pyTranspose (cleanedCols data)

/-- The indices below `m` of the columns of `g` that survive cleanup: a
column is kept when some row has a non-blank cell there. -/
def keptCols (g : List (List String)) (m : Nat) : List Nat :=
  (List.range m).filter (fun i => g.any (fun r => pyStrip (r.getD i "") != ""))

-- ### Table Rasterizer (`create_dynamic_table_image`, app.py lines 86-116)

/-- The content-driven sizing computed by the rasterizer. -/
structure TableImageSpec where
  colWidths : List Nat
  figWidth : ℚ
  figHeight : ℚ
  deriving DecidableEq

/-- Embedding of `create_dynamic_table_image`: `none` is the empty-data
no-op branch (`if not data: return`); otherwise per-column widths are the
maximum cell length, figure width is `min(15, total_width * 0.5)` and
figure height is `len(data) * 0.5`. -/
def create_dynamic_table_image (data : List (List String)) :
    Option TableImageSpec :=
  if data.isEmpty then none
  else
    let col_widths := (pyTranspose data).map
      (fun col => (col.map String.length).foldl max 0)
    some { colWidths := col_widths
           figWidth := min 15 ((col_widths.foldl (· + ·) 0 : ℚ) * (1 / 2))
           figHeight := (data.length : ℚ) * (1 / 2) }

-- ### Content Renderer (`StyledPDF.render_content`, app.py lines 185-220)

/-- One flushed block of a section body: a wrapped prose block, or a table
block handed to the parse / cleanup / rasterize pipeline. -/
inductive Element
  | prose (text : String)
  | table (markdown : String)
  deriving DecidableEq

/-- The lines scanned by `render_content`: `content.strip().split("\n")`. -/
def contentLines (content : String) : List String :=
  pySplit (pyStrip content) '\n'

/-- The buffer loop of `render_content`, as the ordered list of flushed
blocks: a line is a table line when it contains `|`; the buffer is flushed
at every classification change and once at end of input (a prose flush is
skipped when the buffer is empty); table lines are stripped as buffered,
a prose buffer is joined and stripped as a whole. -/
def renderLoop : List String → List String → Bool → List Element
  | [], buf, inTable =>
    if inTable then [.table (joinLines buf)]
    else if buf.isEmpty then [] else [.prose (pyStrip (joinLines buf))]
  | line :: rest, buf, inTable =>
    if hasPipe line then
      if inTable then renderLoop rest (buf ++ [pyStrip line]) true
      else
        (if buf.isEmpty then [] else [.prose (pyStrip (joinLines buf))])
          ++ renderLoop rest [pyStrip line] true
    else
      if inTable then .table (joinLines buf) :: renderLoop rest [line] false
      else renderLoop rest (buf ++ [line]) false

/-- The ordered blocks `render_content` draws for one section body. -/
def render_content_elems (content : String) : List Element :=
  renderLoop (contentLines content) [] false

/-- Spec-side definition (for the refinement claim about interleaving):
the maximal runs of consecutive equally-classified lines, each tagged with
its classification (`true` = table line, contains `|`). -/
def chunkRuns : List String → List (Bool × List String)
  | [] => []
  | l :: ls =>
    match chunkRuns ls with
    | [] => [(hasPipe l, [l])]
    | (b, run) :: rest =>
      if hasPipe l = b then (b, l :: run) :: rest
      else (hasPipe l, [l]) :: (b, run) :: rest

/-- Spec-side definition: flushing one run — a table run becomes one table
block of its stripped lines, a prose run one joined-and-stripped prose
block. -/
def runElement : Bool × List String → Element
  | (true, run) => .table (joinLines (run.map pyStrip))
  | (false, run) => .prose (pyStrip (joinLines run))

/-- Helper for the loop invariant: the blocks still to be emitted when the
loop holds table buffer `buf`, given the runs of the remaining lines. -/
def elemsT (buf : List String) : List (Bool × List String) → List Element
  | (true, run) :: rest =>
    .table (joinLines (buf ++ run.map pyStrip)) :: rest.map runElement
  | (false, run) :: rest =>
    .table (joinLines buf) :: ((false, run) :: rest).map runElement
  | [] => [.table (joinLines buf)]

/-- Helper for the loop invariant: the blocks still to be emitted when the
loop holds non-empty prose buffer `buf`, given the runs of the remaining
lines. -/
def elemsF (buf : List String) : List (Bool × List String) → List Element
  | (false, run) :: rest =>
    .prose (pyStrip (joinLines (buf ++ run))) :: rest.map runElement
  | (true, run) :: rest =>
    .prose (pyStrip (joinLines buf)) :: ((true, run) :: rest).map runElement
  | [] => [.prose (pyStrip (joinLines buf))]

-- ### Page state and the page-break rule (`StyledPDF.render_table`, 222-249)

/-- The document cursor: current page and vertical position. -/
structure PDFState where
  page : Nat
  y : ℚ
  deriving DecidableEq

/-- Where a table image was placed, and whether a page break preceded it. -/
structure Placement where
  page : Nat
  y : ℚ
  newPage : Bool
  deriving DecidableEq

/-- The rendering environment: page height `self.h`, the cursor position at
the top of a fresh page (after the header chrome), the measured height of a
rasterized grid at the placed width, and the underlying paginating text
primitive used by `multi_cell`. -/
structure RenderCfg where
  pageH : ℚ
  topY : ℚ
  imgHeight : List (List String) → ℚ
  proseDraw : PDFState → String → PDFState

/-- The placement step of `render_table` (app.py lines 234-241): a new page
is started iff `self.get_y() + img_height > self.h - 20`; the image is
placed at the (possibly reset) cursor and the cursor advances by
`img_height + 5` (`self.ln(img_height + 5)`). -/
def place_table_image (cfg : RenderCfg) (s : PDFState) (h : ℚ) :
    Placement × PDFState :=
  if s.y + h > cfg.pageH - 20 then
    (⟨s.page + 1, cfg.topY, true⟩, ⟨s.page + 1, cfg.topY + h + 5⟩)
  else
    (⟨s.page, s.y, false⟩, ⟨s.page, s.y + h + 5⟩)

/-- A prose flush: `self.multi_cell(0, 8, text)` delegated to the
underlying primitive, then `self.ln(5)`. There is no height check here. -/
def render_prose (cfg : RenderCfg) (s : PDFState) (text : String) : PDFState :=
  let s' := cfg.proseDraw s text
  ⟨s'.page, s'.y + 5⟩

/-- The data pipeline of `render_table`: parse the markup, then drop blank
columns. A parse failure propagates (`except ...: raise`). -/
def render_table_grid (md : String) : Except TableError (List (List String)) :=
  (parse_markdown_table md).map clean_table_data

/-- Drawing one flushed block: prose goes straight to the primitive; a
table block is parsed, cleaned, rasterized and placed under the page-break
rule, and `render_content` then runs `self.ln(10)`. -/
def renderElement (cfg : RenderCfg) (s : PDFState) :
    Element → Except TableError PDFState
  | .prose t => .ok (render_prose cfg s t)
  | .table md =>
    match render_table_grid md with
    | .error e => .error e
    | .ok g =>
      let s' := (place_table_image cfg s (cfg.imgHeight g)).2
      .ok ⟨s'.page, s'.y + 10⟩

/-- Drawing the flushed blocks in order; the first failure aborts. -/
def renderElems (cfg : RenderCfg) :
    PDFState → List Element → Except TableError PDFState
  | s, [] => .ok s
  | s, e :: es =>
    match renderElement cfg s e with
    | .error err => .error err
    | .ok s' => renderElems cfg s' es

/-- Embedding of `render_content` as a state transformer. -/
def render_content (cfg : RenderCfg) (s : PDFState) (content : String) :
    Except TableError PDFState :=
  renderElems cfg s (render_content_elems content)

/-- Embedding of `add_section`: the title cell (height 10) and `ln(3)`,
the body via `render_content`, then `ln(5)`. -/
def add_section (cfg : RenderCfg) (s : PDFState) (_title content : String) :
    Except TableError PDFState :=
  (render_content cfg ⟨s.page, s.y + 10 + 3⟩ content).map
    (fun s' => ⟨s'.page, s'.y + 5⟩)

-- ### Request flow (`generate_pdf` endpoint, app.py lines 325-389)

/-- The request body model (`GeneratePDFRequest`). -/
structure GeneratePDFRequest where
  executive_summary : String
  portfolio_summary : String
  tax_loss_harvesting_analysis : String
  reinvestment_strategy : String
  portfolio_outlook : String
  actionable_next_steps : String
  irs_compliance_warning : String
  deriving DecidableEq

/-- The fixed `"About This Report"` section body. -/
def about_text : String :=
  "This report outlines a strategy for optimizing your portfolio through tax-loss harvesting (TLH) and reinvestment. It is designed to align with your aggressive risk tolerance, sector preferences, and growth-oriented investment goals."

/-- The fixed disclaimer section body. -/
def disclaimer_text : String :=
  "This report is provided for informational purposes only and is based on the data and preferences you have shared. The recommendations contained herein are intended to assist in optimizing your portfolio in alignment with your stated investment goals, risk tolerance, and financial objectives.\n\nMarket Risks: All investments involve risk, including the potential loss of principal. Past performance is not indicative of future results.\nTax Considerations: Tax-loss harvesting recommendations are based on current IRS guidelines, which are subject to change. Consult a qualified tax advisor.\nNo Guarantees: There is no guarantee that recommendations will achieve the desired outcomes.\nDynamic Market Conditions: This report does not account for unforeseen market fluctuations or macroeconomic factors.\n\nConsult with legal, tax, and financial advisors before acting on any recommendations provided in this report."

/-- The user sections in `body.dict()` order, with the titles produced by
`title.replace("_", " ").title()`. -/
def sectionsOf (body : GeneratePDFRequest) : List (String × String) :=
  [("Executive Summary", body.executive_summary),
   ("Portfolio Summary", body.portfolio_summary),
   ("Tax Loss Harvesting Analysis", body.tax_loss_harvesting_analysis),
   ("Reinvestment Strategy", body.reinvestment_strategy),
   ("Portfolio Outlook", body.portfolio_outlook),
   ("Actionable Next Steps", body.actionable_next_steps),
   ("Irs Compliance Warning", body.irs_compliance_warning)]

/-- The document build inside the handler: `add_page`, the fixed section,
the seven user sections, then the disclaimer; the first table failure
aborts the build. -/
def buildDoc (cfg : RenderCfg) (body : GeneratePDFRequest) :
    Except TableError PDFState := do
  let s0 : PDFState := ⟨1, cfg.topY⟩
  let s1 ← add_section cfg s0 "About This Report" about_text
  let s2 ← (sectionsOf body).foldlM (fun s p => add_section cfg s p.1 p.2) s1
  add_section cfg s2 "Disclaimer" disclaimer_text

/-- The externally visible side effects of one request. -/
inductive EffectOp
  | composeDocument
  | putObject (key : String)
  | presignUrl (key : String)
  deriving DecidableEq

/-- An HTTP error response (`HTTPException(status_code=...)`). -/
structure HttpError where
  status : Nat
  deriving DecidableEq

/-- The `/generate-pdf` handler body after authentication: compose the
document; on failure the exception reaches the top-level handler and is
converted to a 500 response before any storage call; on success the bytes
are uploaded and a presigned URL is generated. -/
def generate_pdf (cfg : RenderCfg) (objName : String)
    (body : GeneratePDFRequest) : List EffectOp × Except HttpError String :=
  match buildDoc cfg body with
  | .error _ => ([.composeDocument], .error ⟨500⟩)
  | .ok _ =>
    ([.composeDocument, .putObject objName, .presignUrl objName],
     .ok "PDF generated successfully")

/-- `API_KEY = os.getenv("API_KEY", "default_key")`. -/
def apiKeyOf (env : String → Option String) : String :=
  (env "API_KEY").getD "default_key"

/-- The `get_api_key` dependency: exact string comparison against the
configured key; a missing header (`none`) or any other value is rejected
with a 401. -/
def get_api_key (provided : Option String) (configured : String) :
    Except HttpError String :=
  if provided = some configured then .ok configured else .error ⟨401⟩

/-- The full request flow: FastAPI evaluates the API-key dependency before
the handler body runs, so a rejected request performs no effect at all. -/
def handle_generate_pdf (env : String → Option String) (cfg : RenderCfg)
    (objName : String) (headerKey : Option String)
    (body : GeneratePDFRequest) : List EffectOp × Except HttpError String :=
  match get_api_key headerKey (apiKeyOf env) with
  | .error e => ([], .error e)
  | .ok _ => generate_pdf cfg objName body

-- ### Concrete instances used by the witnesses

/-- A concrete rendering environment (page height 297, top cursor 35, a
constant image-height oracle, an inert text primitive). -/
def cfgEx : RenderCfg :=
  { pageH := 297
    topY := 35
    imgHeight := fun _ => 50
    proseDraw := fun s _ => s }

/-- An environment with no variables set. -/
def envNone : String → Option String := fun _ => none

/-- A request whose executive summary contains a malformed table (only two
non-blank lines). -/
def reqBad : GeneratePDFRequest :=
  { executive_summary := "a|b\nc|d"
    portfolio_summary := ""
    tax_loss_harvesting_analysis := ""
    reinvestment_strategy := ""
    portfolio_outlook := ""
    actionable_next_steps := ""
    irs_compliance_warning := "" }

/-- The section body of the spec's interleaving example. -/
def exBody : String :=
  "Summary line.\n\n| A | B |\n|---|---|\n| 1 | 2 |\n\nMore text."

/-- The table block flushed out of `exBody`. -/
def exTable : String := "| A | B |\n|---|---|\n| 1 | 2 |"

-- ### Basic lemmas on the string primitives

theorem splitCharList_ne_nil (c : Char) (l : List Char) :
    splitCharList c l ≠ [] := by
  cases l with
  | nil => simp [splitCharList]
  | cons x xs =>
    simp only [splitCharList]
    split <;> simp

theorem pySplit_length_pos (s : String) (c : Char) : 0 < (pySplit s c).length := by
  unfold pySplit
  rw [List.length_map]
  exact List.length_pos.mpr (splitCharList_ne_nil c s.data)

theorem le_foldl_max_init (l : List Nat) (a : Nat) : a ≤ l.foldl max a := by
  induction l generalizing a with
  | nil => simp
  | cons x xs ih => exact le_trans (Nat.le_max_left a x) (ih (max a x))

theorem le_foldl_max_mem (l : List Nat) (a x : Nat) (hx : x ∈ l) :
    x ≤ l.foldl max a := by
  induction l generalizing a with
  | nil => cases hx
  | cons y ys ih =>
    rcases List.mem_cons.mp hx with rfl | h
    · exact le_trans (Nat.le_max_right a x) (le_foldl_max_init ys (max a x))
    · exact ih (max a y) h

-- ### Lemmas about the parser

theorem parse_ok_iff (md : String) (g : List (List String)) :
    parse_markdown_table md = .ok g ↔
      3 ≤ (normRows md).length ∧ (sepCells md).all sepCellOk = true ∧
      g = padRow (maxColsOf md) (headerCells md)
            :: (dataCells md).map (padRow (maxColsOf md)) := by
  unfold parse_markdown_table
  by_cases h3 : (normRows md).length < 3
  · rw [if_pos h3]
    simp only [reduceCtorEq, false_iff, not_and]
    intro h
    omega
  · rw [if_neg h3]
    by_cases hs : (sepCells md).all sepCellOk
    · rw [if_pos hs]
      constructor
      · intro h
        exact ⟨by omega, hs, (Except.ok.injEq _ _ |>.mp h).symm⟩
      · rintro ⟨-, -, rfl⟩
        rfl
    · rw [if_neg hs]
      simp only [reduceCtorEq, false_iff, not_and]
      intro _ h
      exact absurd h hs

theorem maxCols_ge_header (md : String) :
    (headerCells md).length ≤ maxColsOf md :=
  le_foldl_max_init _ _

theorem maxCols_ge_data (md : String) (row : List String)
    (hr : row ∈ dataCells md) : row.length ≤ maxColsOf md :=
  le_foldl_max_mem _ _ _ (List.mem_map_of_mem List.length hr)

theorem padRow_length (m : Nat) (row : List String) (h : row.length ≤ m) :
    (padRow m row).length = m := by
  simp only [padRow, List.length_append, List.length_map, List.length_replicate]
  omega

theorem maxCols_pos (md : String) : 1 ≤ maxColsOf md :=
  le_trans (pySplit_length_pos _ _) (maxCols_ge_header md)

/-- Claim C1: for every valid table markup, `parse_markdown_table` returns
a grid of exactly `n + 1` rows (`n` the number of data rows, the separator
row excluded), every row of width `max_cols`, the maximum cell count over
the header and all data rows, with each cell trimmed and missing cells
filled with the empty string — no row is ever truncated; and the ragged
example `"A|B\n--|--\n1|\n|2"` parses to
`[["A","B"],["1",""],["","2"]]`. -/
theorem parse_grid_shape :
    (∀ md g, parse_markdown_table md = .ok g →
      g.length = ((normRows md).length - 2) + 1
      ∧ (headerCells md).length ≤ maxColsOf md
      ∧ (∀ row ∈ dataCells md, row.length ≤ maxColsOf md)
      ∧ (∀ r ∈ g, r.length = maxColsOf md)
      ∧ g = padRow (maxColsOf md) (headerCells md)
              :: (dataCells md).map (padRow (maxColsOf md)))
    ∧ parse_markdown_table "A|B\n--|--\n1|\n|2"
        = .ok [["A", "B"], ["1", ""], ["", "2"]] := by
  constructor
  · intro md g h
    obtain ⟨h3, -, rfl⟩ := (parse_ok_iff md g).mp h
    refine ⟨?_, maxCols_ge_header md, fun row hr => maxCols_ge_data md row hr,
      ?_, rfl⟩
    · simp [dataCells]
    · intro r hr
      rcases List.mem_cons.mp hr with rfl | hr
      · exact padRow_length _ _ (maxCols_ge_header md)
      · obtain ⟨row, hrow, rfl⟩ := List.mem_map.mp hr
        exact padRow_length _ _ (maxCols_ge_data md row hrow)
  · decide

theorem parse_grid_shape_witness :
    ([["A", "B"], ["1", ""], ["", "2"]] : List (List String)).length
        = ((normRows "A|B\n--|--\n1|\n|2").length - 2) + 1
    ∧ ∀ r ∈ ([["A", "B"], ["1", ""], ["", "2"]] : List (List String)),
        r.length = maxColsOf "A|B\n--|--\n1|\n|2" := by
  have h := parse_grid_shape.1 "A|B\n--|--\n1|\n|2"
    [["A", "B"], ["1", ""], ["", "2"]] (by decide)
  exact ⟨h.1, h.2.2.2.1⟩

/-- Claim C5: markup in which fewer than 3 non-blank lines remain after
splitting on line breaks, trimming and discarding blank lines fails with
the insufficient-rows parse error rather than returning a grid. -/
theorem parse_too_few_rows (md : String) (h : (normRows md).length < 3) :
    parse_markdown_table md = .error .insufficientRows := by
  unfold parse_markdown_table
  rw [if_pos h]

theorem parse_too_few_rows_witness :
    (normRows "A|B\n--|--").length < 3
    ∧ parse_markdown_table "A|B\n--|--" = .error .insufficientRows :=
  ⟨by decide, parse_too_few_rows "A|B\n--|--" (by decide)⟩

/-- Claim C6: for markup with at least 3 non-blank lines, parsing fails if
and only if some cell of the second non-blank line (split on `|` and
trimmed) is non-empty and not composed entirely of one or more dashes;
empty separator cells are accepted. -/
theorem parse_separator_iff (md : String) (h3 : 3 ≤ (normRows md).length) :
    (∃ e, parse_markdown_table md = .error e) ↔
      ∃ c ∈ sepCells md, sepCellOk c = false := by
  unfold parse_markdown_table
  rw [if_neg (by omega)]
  by_cases hs : (sepCells md).all sepCellOk
  · rw [if_pos hs]
    simp only [List.all_eq_true] at hs
    constructor
    · rintro ⟨e, he⟩
      exact absurd he (by simp)
    · rintro ⟨c, hc, hbad⟩
      exact absurd (hs c hc) (by simp [hbad])
  · rw [if_neg hs]
    constructor
    · rintro -
      obtain ⟨c, hc, hbad⟩ :=
        List.all_eq_false.mp (Bool.eq_false_iff.mpr hs)
      exact ⟨c, hc, Bool.not_eq_true _ |>.mp hbad⟩
    · intro _
      exact ⟨.badSeparator, rfl⟩

theorem parse_separator_iff_witness :
    3 ≤ (normRows "A|B\n-x-\n1|2").length
    ∧ ∃ e, parse_markdown_table "A|B\n-x-\n1|2" = Except.error e :=
  ⟨by decide, (parse_separator_iff "A|B\n-x-\n1|2" (by decide)).mpr
    ⟨"-x-", by decide, by decide⟩⟩

-- ### Page-break rule

/-- Claim C3: `render_table` starts a new page before placing a table image
of height `h` at cursor `y` iff `y + h > pageH - 20` (page height minus the
bottom margin); after a break the image is placed at the new page's cursor,
otherwise at the current cursor; and the prose path consults only the
underlying paginating primitive — it performs no height check of its own
(its result depends on the environment only through that primitive). -/
theorem table_page_break_rule :
    (∀ (cfg : RenderCfg) (s : PDFState) (h : ℚ),
      ((place_table_image cfg s h).1.newPage = true ↔ s.y + h > cfg.pageH - 20)
      ∧ ((place_table_image cfg s h).1.newPage = true →
          (place_table_image cfg s h).1.page = s.page + 1
          ∧ (place_table_image cfg s h).1.y = cfg.topY)
      ∧ ((place_table_image cfg s h).1.newPage = false →
          (place_table_image cfg s h).1.page = s.page
          ∧ (place_table_image cfg s h).1.y = s.y))
    ∧ (∀ (cfg₁ cfg₂ : RenderCfg) (s : PDFState) (t : String),
        cfg₁.proseDraw = cfg₂.proseDraw →
        render_prose cfg₁ s t = render_prose cfg₂ s t) := by
  constructor
  · intro cfg s h
    unfold place_table_image
    by_cases hb : s.y + h > cfg.pageH - 20
    · rw [if_pos hb]
      exact ⟨by simpa using hb, fun _ => ⟨rfl, rfl⟩, by simp⟩
    · rw [if_neg hb]
      exact ⟨by simpa using hb, by simp, fun _ => ⟨rfl, rfl⟩⟩
  · intro c1 c2 s t he
    unfold render_prose
    rw [he]

theorem table_page_break_rule_witness :
    (place_table_image cfgEx ⟨1, 260⟩ 50).1.newPage = true
    ∧ (place_table_image cfgEx ⟨1, 260⟩ 50).1.page = 2
    ∧ (place_table_image cfgEx ⟨1, 260⟩ 50).1.y = 35 := by
  have h := table_page_break_rule.1 cfgEx ⟨1, 260⟩ 50
  have hb : ((⟨1, 260⟩ : PDFState)).y + (50 : ℚ) > cfgEx.pageH - 20 := by
    show (260 : ℚ) + 50 > 297 - 20
    norm_num
  have hn := h.1.mpr hb
  exact ⟨hn, (h.2.1 hn).1, (h.2.1 hn).2⟩

-- ### Authentication

/-- Claim C8: a request whose header key is missing or differs from the
configured key is rejected with a 401 before any rendering: the composer is
never invoked and no storage operation is performed. -/
theorem unauthorized_no_effects (env : String → Option String)
    (cfg : RenderCfg) (objName : String) (hdr : Option String)
    (body : GeneratePDFRequest) (h : hdr ≠ some (apiKeyOf env)) :
    handle_generate_pdf env cfg objName hdr body = ([], .error ⟨401⟩)
    ∧ EffectOp.composeDocument ∉ (handle_generate_pdf env cfg objName hdr body).1
    ∧ ∀ k, EffectOp.putObject k ∉ (handle_generate_pdf env cfg objName hdr body).1
        ∧ EffectOp.presignUrl k ∉ (handle_generate_pdf env cfg objName hdr body).1 := by
  have hr : handle_generate_pdf env cfg objName hdr body = ([], .error ⟨401⟩) := by
    unfold handle_generate_pdf get_api_key
    rw [if_neg h]
  refine ⟨hr, ?_, ?_⟩ <;> simp [hr]

theorem unauthorized_no_effects_witness :
    handle_generate_pdf envNone cfgEx "report.pdf" (some "wrong") reqBad
      = ([], .error ⟨401⟩) :=
  (unauthorized_no_effects envNone cfgEx "report.pdf" (some "wrong") reqBad
    (by decide)).1

/-- Claim C10: with no `API_KEY` environment variable the configured key is
the literal `"default_key"`, so the header value `"default_key"` is then
accepted; and in general a request is rejected iff its header key differs
from the configured value. -/
theorem api_key_default_accept (env : String → Option String)
    (hdr : Option String) :
    (env "API_KEY" = none →
      apiKeyOf env = "default_key"
      ∧ get_api_key (some "default_key") (apiKeyOf env) = .ok "default_key")
    ∧ ((∃ e, get_api_key hdr (apiKeyOf env) = .error e)
        ↔ hdr ≠ some (apiKeyOf env)) := by
  constructor
  · intro h
    have hk : apiKeyOf env = "default_key" := by
      unfold apiKeyOf
      rw [h]
      rfl
    refine ⟨hk, ?_⟩
    rw [hk]
    rfl
  · unfold get_api_key
    by_cases hh : hdr = some (apiKeyOf env)
    · rw [if_pos hh]
      simp [hh]
    · rw [if_neg hh]
      simp [hh]

theorem api_key_default_accept_witness :
    apiKeyOf envNone = "default_key"
    ∧ get_api_key (some "default_key") (apiKeyOf envNone)
        = .ok "default_key" :=
  (api_key_default_accept envNone (some "default_key")).1 rfl

-- ### Transpose lemmas

theorem list_any_map {α β : Type} (f : α → β) (l : List α) (p : β → Bool) :
    (l.map f).any p = l.any (fun a => p (f a)) := by
  induction l with
  | nil => rfl
  | cons x xs ih => simp only [List.map_cons, List.any_cons, ih]

theorem foldl_min_eq (rs : List (List String)) (m : Nat)
    (h : ∀ l ∈ rs, l.length = m) :
    rs.foldl (fun acc l => min acc l.length) m = m := by
  induction rs with
  | nil => rfl
  | cons x xs ih =>
    simp only [List.foldl_cons]
    rw [h x (List.mem_cons_self x xs), min_self]
    exact ih (fun l hl => h l (List.mem_cons_of_mem x hl))

theorem pyTranspose_eq_range (g : List (List String)) (m : Nat) (hne : g ≠ [])
    (hrect : ∀ r ∈ g, r.length = m) :
    pyTranspose g
      = (List.range m).map (fun i => g.map (fun l => l.getD i "")) := by
  cases g with
  | nil => exact absurd rfl hne
  | cons r rs =>
    have h1 : r.length = m := hrect r (List.mem_cons_self r rs)
    have h2 : rs.foldl (fun acc l => min acc l.length) r.length = m := by
      rw [h1]
      exact foldl_min_eq rs m (fun l hl => hrect l (List.mem_cons_of_mem r hl))
    rw [pyTranspose, h2]

theorem pyTranspose_col_length (g : List (List String)) (col : List String)
    (hc : col ∈ pyTranspose g) : col.length = g.length := by
  cases g with
  | nil => exact absurd hc (by simp [pyTranspose])
  | cons r rs =>
    unfold pyTranspose at hc
    obtain ⟨i, _, rfl⟩ := List.mem_map.mp hc
    simp

theorem range_map_getD (l : List String) (d : String) :
    (List.range l.length).map (fun j => l.getD j d) = l := by
  apply List.ext_getElem
  · simp
  · intro i h1 h2
    simp only [List.getElem_map, List.getElem_range]
    exact List.getD_eq_getElem l d h2

theorem getD_col (g : List (List String)) (i j : Nat) (h : j < g.length) :
    (g.map (fun l => l.getD i "")).getD j "" = (g.get ⟨j, h⟩).getD i "" := by
  rw [List.getD_eq_getElem (g.map fun l => l.getD i "") "" (by simpa using h),
    List.getElem_map, List.get_eq_getElem]

theorem pyTranspose_pyTranspose (c : List (List String)) (n : Nat)
    (hn : 1 ≤ n) (hne : c ≠ []) (hrect : ∀ x ∈ c, x.length = n) :
    pyTranspose (pyTranspose c) = c := by
  rw [pyTranspose_eq_range c n hne hrect]
  have hTne :
      (List.range n).map (fun j => c.map (fun l => l.getD j "")) ≠ [] := by
    simp only [ne_eq, List.map_eq_nil_iff, List.range_eq_nil]
    omega
  have hTrect :
      ∀ x ∈ (List.range n).map (fun j => c.map (fun l => l.getD j "")),
        x.length = c.length := by
    intro x hx
    obtain ⟨j, _, rfl⟩ := List.mem_map.mp hx
    simp
  rw [pyTranspose_eq_range _ c.length hTne hTrect]
  apply List.ext_getElem
  · simp
  · intro i h1 h2
    simp only [List.getElem_map, List.getElem_range, List.map_map,
      Function.comp_def]
    have hstep : ∀ j ∈ List.range n,
        (c.map (fun l => l.getD j "")).getD i "" = (c.get ⟨i, h2⟩).getD j "" := by
      intro j _
      exact getD_col c j i h2
    rw [List.map_congr_left hstep]
    have hlen : (c.get ⟨i, h2⟩).length = n := hrect _ (List.get_mem c i h2)
    rw [← hlen, range_map_getD, List.get_eq_getElem]

-- ### Column-cleanup lemmas

theorem cleanedCols_eq_keptCols (g : List (List String)) (m : Nat)
    (hne : g ≠ []) (hrect : ∀ r ∈ g, r.length = m) :
    cleanedCols g
      = (keptCols g m).map (fun i => g.map (fun l => l.getD i "")) := by
  unfold cleanedCols
  rw [pyTranspose_eq_range g m hne hrect, List.filter_map]
  unfold keptCols
  congr 1
  apply List.filter_congr
  intro i _
  show colNonBlank (g.map (fun l => l.getD i ""))
      = g.any (fun r => pyStrip (r.getD i "") != "")
  rw [colNonBlank, list_any_map]

theorem clean_eq_keptCols (g : List (List String)) (m : Nat) (hne : g ≠ [])
    (hrect : ∀ r ∈ g, r.length = m) :
    clean_table_data g =
      if keptCols g m = [] then g
      else g.map (fun r => (keptCols g m).map (fun i => r.getD i "")) := by
  unfold clean_table_data
  rw [if_neg (by simp [List.isEmpty_iff, hne]),
    cleanedCols_eq_keptCols g m hne hrect]
  by_cases hk : keptCols g m = []
  · rw [if_pos hk]
    rw [hk]
    rfl
  · rw [if_neg hk, if_neg (by simp [List.isEmpty_iff, List.map_eq_nil_iff, hk])]
    have hKne :
        (keptCols g m).map (fun i => g.map (fun l => l.getD i "")) ≠ [] := by
      simp [List.map_eq_nil_iff, hk]
    have hKrect :
        ∀ x ∈ (keptCols g m).map (fun i => g.map (fun l => l.getD i "")),
          x.length = g.length := by
      intro x hx
      obtain ⟨i, _, rfl⟩ := List.mem_map.mp hx
      simp
    rw [pyTranspose_eq_range _ g.length hKne hKrect]
    apply List.ext_getElem
    · simp
    · intro j h1 h2
      have hj : j < g.length := by simpa using h2
      simp only [List.getElem_map, List.getElem_range, List.map_map,
        Function.comp_def]
      apply List.map_congr_left
      intro i _
      rw [getD_col g i j hj, List.get_eq_getElem]

theorem clean_table_data_length (g : List (List String)) :
    (clean_table_data g).length = g.length := by
  by_cases hg : g = []
  · subst hg
    rfl
  · unfold clean_table_data
    rw [if_neg (by simp [List.isEmpty_iff, hg])]
    by_cases hc : cleanedCols g = []
    · rw [if_pos (by simp [List.isEmpty_iff, hc])]
    · rw [if_neg (by simp [List.isEmpty_iff, hc])]
      have hCrect : ∀ x ∈ cleanedCols g, x.length = g.length := fun x hx =>
        pyTranspose_col_length g x (List.mem_of_mem_filter hx)
      rw [pyTranspose_eq_range (cleanedCols g) g.length hc hCrect]
      simp

theorem clean_table_data_width (g : List (List String)) (m : Nat)
    (hne : g ≠ []) (hrect : ∀ r ∈ g, r.length = m) (hm : 1 ≤ m) :
    ∀ r ∈ clean_table_data g, 1 ≤ r.length := by
  unfold clean_table_data
  rw [if_neg (by simp [List.isEmpty_iff, hne])]
  by_cases hc : cleanedCols g = []
  · rw [if_pos (by simp [List.isEmpty_iff, hc])]
    intro r hr
    rw [hrect r hr]
    exact hm
  · rw [if_neg (by simp [List.isEmpty_iff, hc])]
    have hCrect : ∀ x ∈ cleanedCols g, x.length = g.length := fun x hx =>
      pyTranspose_col_length g x (List.mem_of_mem_filter hx)
    rw [pyTranspose_eq_range (cleanedCols g) g.length hc hCrect]
    intro r hr
    obtain ⟨j, _, rfl⟩ := List.mem_map.mp hr
    simp only [List.length_map]
    exact List.length_pos.mpr hc

theorem clean_table_data_idem (g : List (List String)) :
    clean_table_data (clean_table_data g) = clean_table_data g := by
  by_cases hg : g = []
  · subst hg
    rfl
  · by_cases hc : cleanedCols g = []
    · have hfix : clean_table_data g = g := by
        unfold clean_table_data
        rw [if_neg (by simp [List.isEmpty_iff, hg]),
          if_pos (by simp [List.isEmpty_iff, hc])]
      rw [hfix]
      exact hfix
    · have hclean : clean_table_data g = pyTranspose (cleanedCols g) := by
        unfold clean_table_data
        rw [if_neg (by simp [List.isEmpty_iff, hg]),
          if_neg (by simp [List.isEmpty_iff, hc])]
      have hCrect : ∀ x ∈ cleanedCols g, x.length = g.length := fun x hx =>
        pyTranspose_col_length g x (List.mem_of_mem_filter hx)
      have hglen : 1 ≤ g.length := List.length_pos.mpr hg
      have hTg' : pyTranspose (cleanedCols g)
          = (List.range g.length).map
              (fun j => (cleanedCols g).map (fun l => l.getD j "")) :=
        pyTranspose_eq_range (cleanedCols g) g.length hc hCrect
      have hg'ne : pyTranspose (cleanedCols g) ≠ [] := by
        rw [hTg']
        simp only [ne_eq, List.map_eq_nil_iff, List.range_eq_nil]
        omega
      have hTT : pyTranspose (pyTranspose (cleanedCols g)) = cleanedCols g :=
        pyTranspose_pyTranspose (cleanedCols g) g.length hglen hc hCrect
      have hfil : cleanedCols (pyTranspose (cleanedCols g)) = cleanedCols g := by
        have hdef : cleanedCols (pyTranspose (cleanedCols g))
            = (pyTranspose (pyTranspose (cleanedCols g))).filter colNonBlank :=
          rfl
        rw [hdef, hTT]
        apply List.filter_eq_self.mpr
        intro a ha
        simp only [cleanedCols] at ha
        exact List.of_mem_filter ha
      rw [hclean]
      unfold clean_table_data
      rw [if_neg (by simp [List.isEmpty_iff, hg'ne]), hfil,
        if_neg (by simp [List.isEmpty_iff, hc])]

/-- Claim C4: `clean_table_data` drops exactly the columns that are blank
(empty after trimming) in every row, header included; it is idempotent;
and it never produces a grid with zero columns — when every column is
blank it returns the input grid unchanged. -/
theorem clean_columns_spec :
    (∀ g, clean_table_data (clean_table_data g) = clean_table_data g)
    ∧ (∀ (g : List (List String)) (m : Nat), g ≠ [] →
        (∀ r ∈ g, r.length = m) →
        (clean_table_data g =
          if keptCols g m = [] then g
          else g.map (fun r => (keptCols g m).map (fun i => r.getD i "")))
        ∧ (1 ≤ m → ∀ r ∈ clean_table_data g, 1 ≤ r.length)) :=
  ⟨clean_table_data_idem, fun g m hne hrect =>
    ⟨clean_eq_keptCols g m hne hrect,
     fun hm => clean_table_data_width g m hne hrect hm⟩⟩

theorem clean_columns_spec_witness :
    clean_table_data [["A", "", "B"], ["1", " ", "2"]]
      = [["A", "B"], ["1", "2"]]
    ∧ clean_table_data (clean_table_data [["A", "", "B"], ["1", " ", "2"]])
      = clean_table_data [["A", "", "B"], ["1", " ", "2"]] := by
  have h2 := (clean_columns_spec.2 [["A", "", "B"], ["1", " ", "2"]] 3
    (by decide) (by decide)).1
  constructor
  · rw [h2]
    decide
  · exact clean_columns_spec.1 _

/-- Claim C9: every grid `parse_markdown_table` returns has at least 2
rows (header plus at least one data row) and at least 1 column in every
row; `clean_table_data` preserves this non-emptiness, so the rasterizer's
empty-grid no-op branch is unreachable for grids reaching it through the
`render_table` pipeline. -/
theorem parsed_grid_nonempty (md : String) (g : List (List String))
    (h : parse_markdown_table md = .ok g) :
    2 ≤ g.length
    ∧ (∀ r ∈ g, 1 ≤ r.length)
    ∧ 2 ≤ (clean_table_data g).length
    ∧ (∀ r ∈ clean_table_data g, 1 ≤ r.length)
    ∧ (create_dynamic_table_image (clean_table_data g)).isSome = true := by
  obtain ⟨h3, -, rfl⟩ := (parse_ok_iff md g).mp h
  set G := padRow (maxColsOf md) (headerCells md)
    :: (dataCells md).map (padRow (maxColsOf md)) with hG
  have hrect : ∀ r ∈ G, r.length = maxColsOf md := by
    intro r hr
    rw [hG] at hr
    rcases List.mem_cons.mp hr with rfl | hr
    · exact padRow_length _ _ (maxCols_ge_header md)
    · obtain ⟨row, hrow, rfl⟩ := List.mem_map.mp hr
      exact padRow_length _ _ (maxCols_ge_data md row hrow)
  have hlen2 : 2 ≤ G.length := by
    rw [hG]
    simp only [List.length_cons, List.length_map, dataCells, List.length_drop]
    omega
  have hne : G ≠ [] := by
    rw [hG]
    simp
  refine ⟨hlen2, fun r hr => ?_, ?_,
    clean_table_data_width G (maxColsOf md) hne hrect (maxCols_pos md), ?_⟩
  · rw [hrect r hr]
    exact maxCols_pos md
  · rw [clean_table_data_length]
    exact hlen2
  · have hcne : clean_table_data G ≠ [] := by
      apply List.length_pos.mp
      rw [clean_table_data_length]
      omega
    unfold create_dynamic_table_image
    rw [if_neg (by simp [List.isEmpty_iff, hcne])]
    rfl

theorem parsed_grid_nonempty_witness :
    2 ≤ ([["", "A", "B", ""], ["", "1", "2", ""]] : List (List String)).length
    ∧ (create_dynamic_table_image
        (clean_table_data [["", "A", "B", ""], ["", "1", "2", ""]])).isSome
      = true := by
  have h := parsed_grid_nonempty exTable
    [["", "A", "B", ""], ["", "1", "2", ""]] (by decide)
  exact ⟨h.1, h.2.2.2.2⟩

-- ### Content-renderer interleaving lemmas

theorem chunkRuns_ne_nil (l : String) (ls : List String) :
    chunkRuns (l :: ls) ≠ [] := by
  simp only [chunkRuns]
  cases chunkRuns ls with
  | nil => simp
  | cons hd rest =>
    obtain ⟨b, run⟩ := hd
    by_cases hb : hasPipe l = b <;> simp [hb]

theorem renderLoop_spec (ls : List String) :
    (∀ buf, renderLoop ls buf true = elemsT buf (chunkRuns ls))
    ∧ (∀ buf, buf ≠ [] → renderLoop ls buf false = elemsF buf (chunkRuns ls)) := by
  induction ls with
  | nil =>
    constructor
    · intro buf
      rfl
    · intro buf hb
      have hbe : buf.isEmpty = false := by simp [List.isEmpty_iff, hb]
      simp [renderLoop, elemsF, chunkRuns, hbe]
  | cons l ls ih =>
    obtain ⟨ihT, ihF⟩ := ih
    constructor
    · intro buf
      by_cases hp : hasPipe l
      · rw [show renderLoop (l :: ls) buf true
            = renderLoop ls (buf ++ [pyStrip l]) true from by
          simp [renderLoop, hp]]
        rw [ihT (buf ++ [pyStrip l])]
        cases hc : chunkRuns ls with
        | nil => simp [chunkRuns, hc, hp, elemsT]
        | cons hd rest =>
          obtain ⟨b, run⟩ := hd
          cases b
          · simp [chunkRuns, hc, hp, elemsT]
          · simp [chunkRuns, hc, hp, elemsT]
      · rw [show renderLoop (l :: ls) buf true
            = .table (joinLines buf) :: renderLoop ls [l] false from by
          simp [renderLoop, hp]]
        rw [ihF [l] (by simp)]
        cases hc : chunkRuns ls with
        | nil => simp [chunkRuns, hc, hp, elemsT, elemsF, runElement]
        | cons hd rest =>
          obtain ⟨b, run⟩ := hd
          cases b
          · simp [chunkRuns, hc, hp, elemsT, elemsF, runElement]
          · simp [chunkRuns, hc, hp, elemsT, elemsF, runElement]
    · intro buf hb
      by_cases hp : hasPipe l
      · have hbe : buf.isEmpty = false := by simp [List.isEmpty_iff, hb]
        rw [show renderLoop (l :: ls) buf false
            = .prose (pyStrip (joinLines buf)) :: renderLoop ls [pyStrip l] true
            from by simp [renderLoop, hp, hbe]]
        rw [ihT [pyStrip l]]
        cases hc : chunkRuns ls with
        | nil => simp [chunkRuns, hc, hp, elemsT, elemsF, runElement]
        | cons hd rest =>
          obtain ⟨b, run⟩ := hd
          cases b
          · simp [chunkRuns, hc, hp, elemsT, elemsF, runElement]
          · simp [chunkRuns, hc, hp, elemsT, elemsF, runElement]
      · rw [show renderLoop (l :: ls) buf false
            = renderLoop ls (buf ++ [l]) false from by simp [renderLoop, hp]]
        rw [ihF (buf ++ [l]) (by simp)]
        cases hc : chunkRuns ls with
        | nil => simp [chunkRuns, hc, hp, elemsF]
        | cons hd rest =>
          obtain ⟨b, run⟩ := hd
          cases b
          · simp [chunkRuns, hc, hp, elemsF]
          · simp [chunkRuns, hc, hp, elemsF]

theorem render_content_elems_eq (content : String) :
    render_content_elems content
      = (chunkRuns (contentLines content)).map runElement := by
  unfold render_content_elems
  cases hls : contentLines content with
  | nil => simp [renderLoop, chunkRuns]
  | cons l ls =>
    by_cases hp : hasPipe l
    · rw [show renderLoop (l :: ls) [] false
          = renderLoop ls [pyStrip l] true from by simp [renderLoop, hp]]
      rw [(renderLoop_spec ls).1 [pyStrip l]]
      cases hc : chunkRuns ls with
      | nil => simp [chunkRuns, hc, hp, elemsT, runElement]
      | cons hd rest =>
        obtain ⟨b, run⟩ := hd
        cases b
        · simp [chunkRuns, hc, hp, elemsT, runElement]
        · simp [chunkRuns, hc, hp, elemsT, runElement]
    · rw [show renderLoop (l :: ls) [] false
          = renderLoop ls [l] false from by simp [renderLoop, hp]]
      rw [(renderLoop_spec ls).2 [l] (by simp)]
      cases hc : chunkRuns ls with
      | nil => simp [chunkRuns, hc, hp, elemsF, runElement]
      | cons hd rest =>
        obtain ⟨b, run⟩ := hd
        cases b
        · simp [chunkRuns, hc, hp, elemsF, runElement]
        · simp [chunkRuns, hc, hp, elemsF, runElement]

theorem chunkRuns_join (ls : List String) :
    ((chunkRuns ls).map Prod.snd).flatten = ls := by
  induction ls with
  | nil => rfl
  | cons l ls ih =>
    cases hc : chunkRuns ls with
    | nil =>
      cases ls with
      | nil => simp [chunkRuns]
      | cons x xs => exact absurd hc (chunkRuns_ne_nil x xs)
    | cons hd rest =>
      obtain ⟨b, run⟩ := hd
      rw [hc] at ih
      by_cases hb : hasPipe l = b
      · rw [show chunkRuns (l :: ls) = (b, l :: run) :: rest from by
          simp [chunkRuns, hc, hb]]
        simp only [List.map_cons, List.flatten_cons] at ih ⊢
        rw [List.cons_append, ih]
      · rw [show chunkRuns (l :: ls)
            = (hasPipe l, [l]) :: (b, run) :: rest from by
          simp [chunkRuns, hc, hb]]
        simp only [List.map_cons, List.flatten_cons] at ih ⊢
        rw [List.singleton_append, ih]

theorem chunkRuns_classify (ls : List String) :
    ∀ b run, (b, run) ∈ chunkRuns ls → run ≠ [] ∧ ∀ l ∈ run, hasPipe l = b := by
  induction ls with
  | nil =>
    intro b run h
    cases h
  | cons l ls ih =>
    intro b run h
    cases hc : chunkRuns ls with
    | nil =>
      rw [show chunkRuns (l :: ls) = [(hasPipe l, [l])] from by
        simp [chunkRuns, hc]] at h
      obtain ⟨rfl, rfl⟩ : b = hasPipe l ∧ run = [l] := by simpa using h
      exact ⟨by simp, by simp⟩
    | cons hd rest =>
      obtain ⟨b0, run0⟩ := hd
      by_cases hb : hasPipe l = b0
      · rw [show chunkRuns (l :: ls) = (b0, l :: run0) :: rest from by
          simp [chunkRuns, hc, hb]] at h
        rcases List.mem_cons.mp h with heq | hmem
        · obtain ⟨rfl, rfl⟩ : b = b0 ∧ run = l :: run0 := by simpa using heq
          have hh := ih b run0 (by rw [hc]; exact List.mem_cons_self _ _)
          refine ⟨by simp, ?_⟩
          intro x hx
          rcases List.mem_cons.mp hx with rfl | hx
          · exact hb
          · exact hh.2 x hx
        · exact ih b run (by rw [hc]; exact List.mem_cons_of_mem _ hmem)
      · rw [show chunkRuns (l :: ls)
            = (hasPipe l, [l]) :: (b0, run0) :: rest from by
          simp [chunkRuns, hc, hb]] at h
        rcases List.mem_cons.mp h with heq | hmem
        · obtain ⟨rfl, rfl⟩ : b = hasPipe l ∧ run = [l] := by simpa using heq
          exact ⟨by simp, by simp⟩
        · exact ih b run (by rw [hc]; exact hmem)

theorem chunkRuns_chain (ls : List String) :
    List.Chain' (fun p q : Bool × List String => p.1 ≠ q.1) (chunkRuns ls) := by
  induction ls with
  | nil => simp [chunkRuns]
  | cons l ls ih =>
    cases hc : chunkRuns ls with
    | nil =>
      rw [show chunkRuns (l :: ls) = [(hasPipe l, [l])] from by
        simp [chunkRuns, hc]]
      simp
    | cons hd rest =>
      obtain ⟨b0, run0⟩ := hd
      rw [hc] at ih
      by_cases hb : hasPipe l = b0
      · rw [show chunkRuns (l :: ls) = (b0, l :: run0) :: rest from by
          simp [chunkRuns, hc, hb]]
        rw [List.chain'_cons'] at ih ⊢
        exact ⟨ih.1, ih.2⟩
      · rw [show chunkRuns (l :: ls)
            = (hasPipe l, [l]) :: (b0, run0) :: rest from by
          simp [chunkRuns, hc, hb]]
        rw [List.chain'_cons']
        refine ⟨?_, ih⟩
        intro y hy
        simp only [List.head?_cons, Option.mem_def, Option.some.injEq] at hy
        rw [← hy]
        exact hb

/-- Claim C2: `render_content` classifies a line as table iff it contains
`|`, flushes the buffer exactly at each classification change and once at
end of input, and emits the blocks in exactly the order the line runs
appear — the emitted blocks are precisely the maximal
equally-classified runs, mapped in order (the runs partition the lines in
order, each run is non-empty and uniformly classified, and adjacent runs
alternate classification); the spec's example body renders as the prose
block, the table image for grid `[["A","B"],["1","2"]]`, then the second
prose block, in that order. -/
theorem render_content_order :
    (∀ content, render_content_elems content
        = (chunkRuns (contentLines content)).map runElement)
    ∧ (∀ ls, ((chunkRuns ls).map Prod.snd).flatten = ls)
    ∧ (∀ ls b run, (b, run) ∈ chunkRuns ls →
        run ≠ [] ∧ ∀ l ∈ run, hasPipe l = b)
    ∧ (∀ ls, List.Chain' (fun p q : Bool × List String => p.1 ≠ q.1)
        (chunkRuns ls))
    ∧ render_content_elems exBody
        = [.prose "Summary line.", .table exTable, .prose "More text."]
    ∧ render_table_grid exTable = .ok [["A", "B"], ["1", "2"]] :=
  ⟨render_content_elems_eq, chunkRuns_join,
   fun ls => chunkRuns_classify ls, chunkRuns_chain, by decide, by decide⟩

theorem render_content_order_witness :
    render_content_elems exBody
      = (chunkRuns (contentLines exBody)).map runElement
    ∧ ((chunkRuns (contentLines exBody)).map Prod.snd).flatten
        = contentLines exBody :=
  ⟨render_content_order.1 exBody,
   render_content_order.2.1 (contentLines exBody)⟩

-- ### Error-propagation lemmas for the request flow

theorem renderElems_error_of_bad_table (cfg : RenderCfg) (es : List Element) :
    ∀ s : PDFState,
      (∃ md, Element.table md ∈ es
        ∧ ∃ e, parse_markdown_table md = .error e) →
      ∃ e, renderElems cfg s es = .error e := by
  induction es with
  | nil =>
    rintro s ⟨md, hmem, -⟩
    cases hmem
  | cons x rest ih =>
    rintro s ⟨md, hmem, e, hpe⟩
    cases hx : renderElement cfg s x with
    | error e0 => exact ⟨e0, by simp [renderElems, hx]⟩
    | ok s1 =>
      rcases List.mem_cons.mp hmem with heq | hmem'
      · rw [← heq] at hx
        simp [renderElement, render_table_grid, hpe, Except.map] at hx
      · rw [show renderElems cfg s (x :: rest) = renderElems cfg s1 rest
          from by simp [renderElems, hx]]
        exact ih s1 ⟨md, hmem', e, hpe⟩

theorem add_section_error (cfg : RenderCfg) (s : PDFState) (t c : String)
    (h : ∃ md, Element.table md ∈ render_content_elems c
          ∧ ∃ e, parse_markdown_table md = .error e) :
    ∃ e, add_section cfg s t c = .error e := by
  obtain ⟨e, he⟩ := renderElems_error_of_bad_table cfg
    (render_content_elems c) ⟨s.page, s.y + 10 + 3⟩ h
  exact ⟨e, by simp [add_section, render_content, he, Except.map]⟩

theorem fold_sections_error (cfg : RenderCfg)
    (sections : List (String × String)) :
    ∀ s : PDFState,
      (∃ p ∈ sections, ∃ md, Element.table md ∈ render_content_elems p.2
        ∧ ∃ e, parse_markdown_table md = .error e) →
      ∃ e, sections.foldlM (fun s p => add_section cfg s p.1 p.2) s
        = .error e := by
  induction sections with
  | nil =>
    rintro s ⟨p, hp, -⟩
    cases hp
  | cons q rest ih =>
    rintro s ⟨p, hp, hbad⟩
    rw [List.foldlM_cons]
    cases hq : add_section cfg s q.1 q.2 with
    | error e0 => exact ⟨e0, rfl⟩
    | ok s1 =>
      rcases List.mem_cons.mp hp with rfl | hp'
      · obtain ⟨e, he⟩ := add_section_error cfg s p.1 p.2 hbad
        rw [he] at hq
        cases hq
      · obtain ⟨e, he⟩ := ih s1 ⟨p, hp', hbad⟩
        refine ⟨e, ?_⟩
        show rest.foldlM (fun s p => add_section cfg s p.1 p.2) s1 = .error e
        exact he

theorem buildDoc_error (cfg : RenderCfg) (body : GeneratePDFRequest)
    (h : ∃ p ∈ sectionsOf body,
          ∃ md, Element.table md ∈ render_content_elems p.2
            ∧ ∃ e, parse_markdown_table md = .error e) :
    ∃ e, buildDoc cfg body = .error e := by
  have hdef : buildDoc cfg body
      = (add_section cfg ⟨1, cfg.topY⟩ "About This Report" about_text
          >>= fun s1 =>
            ((sectionsOf body).foldlM (fun s p => add_section cfg s p.1 p.2) s1
              >>= fun s2 =>
                add_section cfg s2 "Disclaimer" disclaimer_text)) := rfl
  rw [hdef]
  cases h1 : add_section cfg ⟨1, cfg.topY⟩ "About This Report" about_text with
  | error e0 => exact ⟨e0, rfl⟩
  | ok s1 =>
    obtain ⟨e, he⟩ := fold_sections_error cfg (sectionsOf body) s1 h
    refine ⟨e, ?_⟩
    show ((sectionsOf body).foldlM (fun s p => add_section cfg s p.1 p.2) s1
      >>= fun s2 => add_section cfg s2 "Disclaimer" disclaimer_text) = .error e
    rw [he]
    rfl

/-- Claim C7: a table-parse failure arising while rendering any section
body is not caught or recovered in the parser, rasterizer, content
renderer, or composer: it aborts the entire document build and surfaces as
a 500 response, so no document is produced and no storage operation
(put-object or presigned URL) is performed — no partial output exists. -/
theorem malformed_table_aborts (cfg : RenderCfg) (objName : String)
    (body : GeneratePDFRequest)
    (h : ∃ p ∈ sectionsOf body,
          ∃ md, Element.table md ∈ render_content_elems p.2
            ∧ ∃ e, parse_markdown_table md = Except.error e) :
    generate_pdf cfg objName body = ([.composeDocument], .error ⟨500⟩)
    ∧ (∀ k, EffectOp.putObject k ∉ (generate_pdf cfg objName body).1
        ∧ EffectOp.presignUrl k ∉ (generate_pdf cfg objName body).1) := by
  obtain ⟨e, he⟩ := buildDoc_error cfg body h
  have hg : generate_pdf cfg objName body
      = ([.composeDocument], .error ⟨500⟩) := by
    unfold generate_pdf
    rw [he]
  exact ⟨hg, fun k => by simp [hg]⟩

theorem malformed_table_aborts_witness :
    generate_pdf cfgEx "report.pdf" reqBad
      = ([.composeDocument], .error ⟨500⟩) :=
  (malformed_table_aborts cfgEx "report.pdf" reqBad
    ⟨("Executive Summary", "a|b\nc|d"), by decide, "a|b\nc|d", by decide,
     .insufficientRows, by decide⟩).1

end PdfApp
